import Mathlib

/-!
Verification of the multisig programs in this repository.

The repository holds two implementations of the same multi-party
authorization engine:

* `projects/multisig` (the hand-rolled Solana program) — embedded below in
  namespace `Native`;
* `projects/anchor-multisig` (the Anchor variant) — embedded in namespace
  `Anchor`.

Machine integers are modelled as `Nat` (`u64`/`usize` arithmetic in the
source never overflows on the code paths involved; comparisons coincide
with `Nat` comparisons).  `Pubkey` is a 32-byte value, modelled as
`Fin (256 ^ 32)`.  Fallible Rust functions returning `ProgramResult` /
`Result<()>` on a `&mut self` receiver are modelled as
`Except e T`-returning functions: the `ok` branch carries the mutated
value and the `error` branch the original observable state (on error the
Solana runtime discards the whole invocation's writes, so the persisted
state is unchanged).

Borsh serialization is embedded byte-for-byte: little-endian fixed-width
integers, `u32` length prefix on vectors and byte strings, one byte per
`bool`, struct fields in declaration order.
-/

/-! ## Byte-level primitives (borsh) -/

/-- Little-endian encoding of `n` into exactly `w` bytes (borsh fixed-width
integer layout). -/
def encodeLE : Nat → Nat → List Nat
  | 0, _ => []
  | w + 1, n => n % 256 :: encodeLE w (n / 256)

/-- Little-endian value of a byte list. -/
def decodeLE : List Nat → Nat
  | [] => 0
  | b :: bs => b + 256 * decodeLE bs

theorem length_encodeLE (w : Nat) : ∀ n, (encodeLE w n).length = w := by
  induction w with
  | zero => intro n; rfl
  | succ w ih => intro n; simp [encodeLE, ih]

theorem decodeLE_encodeLE (w : Nat) : ∀ n, decodeLE (encodeLE w n) = n % 256 ^ w := by
  induction w with
  | zero => intro n; simp [encodeLE, decodeLE, Nat.mod_one]
  | succ w ih =>
    intro n
    simp only [encodeLE, decodeLE, ih]
    rw [pow_succ, mul_comm (256 ^ w) 256, Nat.mod_mul]

/-- Reader for exactly `k` raw bytes. -/
def readN (k : Nat) (bs : List Nat) : Option (List Nat × List Nat) :=
  if bs.length < k then none else some (bs.take k, bs.drop k)

theorem readN_append (xs rest : List Nat) : readN xs.length (xs ++ rest) = some (xs, rest) := by
  simp [readN, List.take_left, List.drop_left]

/-- Reader for a `w`-byte little-endian integer. -/
def readLE (w : Nat) (bs : List Nat) : Option (Nat × List Nat) :=
  match readN w bs with
  | none => none
  | some (xs, rest) => some (decodeLE xs, rest)

theorem readLE_append (w n : Nat) (rest : List Nat) (h : n < 256 ^ w) :
    readLE w (encodeLE w n ++ rest) = some (n, rest) := by
  have hr := readN_append (encodeLE w n) rest
  rw [length_encodeLE] at hr
  simp only [readLE, hr, decodeLE_encodeLE, Nat.mod_eq_of_lt h]

abbrev encodeU32 (n : Nat) : List Nat := encodeLE 4 n
abbrev encodeU64 (n : Nat) : List Nat := encodeLE 8 n
abbrev encodeU8 (n : Nat) : List Nat := encodeLE 1 n
abbrev readU32 := readLE 4
abbrev readU64 := readLE 8
abbrev readU8 := readLE 1

theorem readU32_append (n : Nat) (rest : List Nat) (h : n < 2 ^ 32) :
    readU32 (encodeU32 n ++ rest) = some (n, rest) :=
  readLE_append 4 n rest (by norm_num at h ⊢; omega)

theorem readU64_append (n : Nat) (rest : List Nat) (h : n < 2 ^ 64) :
    readU64 (encodeU64 n ++ rest) = some (n, rest) :=
  readLE_append 8 n rest (by norm_num at h ⊢; omega)

theorem readU8_append (n : Nat) (rest : List Nat) (h : n < 256) :
    readU8 (encodeU8 n ++ rest) = some (n, rest) :=
  readLE_append 1 n rest (by norm_num at h ⊢; omega)

/-- A Solana public key: 32 bytes. -/
abbrev Pubkey := Fin (256 ^ 32)

def encodePubkey (k : Pubkey) : List Nat := encodeLE 32 k.val

def readPubkey (bs : List Nat) : Option (Pubkey × List Nat) :=
  match readN 32 bs with
  | none => none
  | some (xs, rest) => some (⟨decodeLE xs % 256 ^ 32, Nat.mod_lt _ (by norm_num)⟩, rest)

theorem readPubkey_append (k : Pubkey) (rest : List Nat) :
    readPubkey (encodePubkey k ++ rest) = some (k, rest) := by
  have hr := readN_append (encodeLE 32 k.val) rest
  rw [length_encodeLE] at hr
  simp only [readPubkey, encodePubkey, hr, decodeLE_encodeLE,
    Nat.mod_eq_of_lt k.isLt, Fin.eta]

def encodeBool (b : Bool) : List Nat := [if b then 1 else 0]

def readBool (bs : List Nat) : Option (Bool × List Nat) :=
  match bs with
  | 0 :: rest => some (false, rest)
  | 1 :: rest => some (true, rest)
  | _ => none

theorem readBool_append (b : Bool) (rest : List Nat) :
    readBool (encodeBool b ++ rest) = some (b, rest) := by
  cases b <;> rfl

/-- Borsh `Vec<u8>` / byte-string layout: `u32` length prefix then the raw
bytes. -/
def encodeBytes (bs : List Nat) : List Nat := encodeU32 bs.length ++ bs

def readBytes (bs : List Nat) : Option (List Nat × List Nat) :=
  match readU32 bs with
  | none => none
  | some (n, rest) => readN n rest

theorem readBytes_append (xs rest : List Nat) (h : xs.length < 2 ^ 32) :
    readBytes (encodeBytes xs ++ rest) = some (xs, rest) := by
  simp only [readBytes, encodeBytes, List.append_assoc]
  rw [readU32_append xs.length _ h]
  exact readN_append xs rest

/-- Borsh `Vec<T>` layout: `u32` element count then the elements in order. -/
def encodeVec (f : α → List Nat) (xs : List α) : List Nat :=
  encodeU32 xs.length ++ (xs.map f).flatten

/-- Read `n` consecutive `f`-elements. -/
def readCount (f : List Nat → Option (α × List Nat)) : Nat → List Nat → Option (List α × List Nat)
  | 0, bs => some ([], bs)
  | n + 1, bs =>
    match f bs with
    | none => none
    | some (x, rest) =>
      match readCount f n rest with
      | none => none
      | some (xs, rest2) => some (x :: xs, rest2)

def readVec (f : List Nat → Option (α × List Nat)) (bs : List Nat) :
    Option (List α × List Nat) :=
  match readU32 bs with
  | none => none
  | some (n, rest) => readCount f n rest

theorem readCount_append (f : List Nat → Option (α × List Nat)) (enc : α → List Nat)
    (xs : List α) (rest : List Nat)
    (hf : ∀ x ∈ xs, ∀ r, f (enc x ++ r) = some (x, r)) :
    readCount f xs.length ((xs.map enc).flatten ++ rest) = some (xs, rest) := by
  induction xs with
  | nil => simp [readCount]
  | cons x tl ih =>
    have h1 := hf x (by simp)
    have h2 := ih (fun y hy r => hf y (by simp [hy]) r)
    simp only [List.map_cons, List.flatten_cons, List.length_cons, List.append_assoc,
      readCount, h1, h2]

theorem readVec_append (f : List Nat → Option (α × List Nat)) (enc : α → List Nat)
    (xs : List α) (rest : List Nat) (h : xs.length < 2 ^ 32)
    (hf : ∀ x ∈ xs, ∀ r, f (enc x ++ r) = some (x, r)) :
    readVec f (encodeVec enc xs ++ rest) = some (xs, rest) := by
  simp only [readVec, encodeVec, List.append_assoc]
  rw [readU32_append xs.length _ h]
  exact readCount_append f enc xs rest hf

theorem length_encodeVec (f : α → List Nat) (xs : List α) :
    (encodeVec f xs).length = 4 + ((xs.map fun x => (f x).length).sum) := by
  simp [encodeVec, length_encodeLE, List.length_flatten, List.map_map, Function.comp_def]

theorem sum_map_constant (c : Nat) (xs : List α) : (xs.map fun _ => c).sum = c * xs.length := by
  induction xs with
  | nil => simp
  | cons x tl ih => simp [ih]; ring

theorem sum_map_const_32 (xs : List α) : (xs.map fun _ => (32 : Nat)).sum = 32 * xs.length :=
  sum_map_constant 32 xs

/-- An account supplied to an instruction: its address and whether it signed
the transaction.  (The lamports/data fields play no role in the claims.) -/
structure AccountInfo where
  key : Pubkey
  is_signer : Bool
deriving DecidableEq, Repr

/-- One account of an outgoing cross-program instruction. -/
structure AccountMeta where
  pubkey : Pubkey
  is_signer : Bool
  is_writable : Bool
deriving DecidableEq, Repr

instance exceptDecEq {ε α : Type} [DecidableEq ε] [DecidableEq α] :
    DecidableEq (Except ε α) := fun x y =>
  match x, y with
  | .ok a, .ok b =>
    if h : a = b then isTrue (h ▸ rfl) else isFalse (fun he => h (Except.ok.inj he))
  | .ok _, .error _ => isFalse (fun he => Except.noConfusion he)
  | .error _, .ok _ => isFalse (fun he => Except.noConfusion he)
  | .error e, .error f =>
    if h : e = f then isTrue (h ▸ rfl) else isFalse (fun he => h (Except.error.inj he))

/-! ## `projects/multisig` — the native implementation -/

namespace Native

/-- `solana_program::program_error::ProgramError`, restricted to the
variants the program produces.  `Custom n` carries the program's own error
codes (`MultisigError` 0–3, `ProposalError` 200–203). -/
inductive ProgramError where
  | Custom (code : Nat)
  | InvalidAccountData
  | MissingRequiredSignature
  | NotEnoughAccountKeys
deriving DecidableEq, Repr

end Native

namespace MultisigError

/-- `MultisigError::NotAMember as u32` -/
def NotAMember : Nat := 0

/-- `MultisigError::ThresholdTooHigh as u32` -/
def ThresholdTooHigh : Nat := 1

/-- `MultisigError::ThresholdTooLow as u32` -/
def ThresholdTooLow : Nat := 2

/-- `MultisigError::NoMembers as u32` -/
def NoMembers : Nat := 3

end MultisigError

namespace ProposalError

/-- `ProposalError::AlreadyApproved as u64` -/
def AlreadyApproved : Nat := 200

/-- `ProposalError::AlreadyExecuted as u32` -/
def AlreadyExecuted : Nat := 201

/-- `ProposalError::NotEnoughApprovals as u64` -/
def NotEnoughApprovals : Nat := 203

end ProposalError

namespace Native

/-- `src/multisig.rs` `struct Multisig`. -/
structure Multisig where
  name : List Nat
  members : List Pubkey
  threshold : Nat
deriving DecidableEq, Repr

/-- `Multisig::is_member`: `self.members.contains(member)`. -/
def Multisig.is_member (m : Multisig) (member : Pubkey) : Bool :=
  m.members.contains member

/-- `Multisig::check_member`. -/
def Multisig.check_member (m : Multisig) (member : Pubkey) : Except ProgramError Unit :=
  if !(m.is_member member) then .error (.Custom MultisigError.NotAMember)
  else .ok ()

/-- `Multisig::add_member`: if already a member, do nothing (returns `Ok`);
otherwise push. -/
def Multisig.add_member (m : Multisig) (member : Pubkey) : Except ProgramError Multisig :=
  if m.is_member member then .ok m
  else .ok { m with members := m.members ++ [member] }

/-- `Multisig::remove_member`: `retain(|x| *x != member)`, then the
`NoMembers` check, then the `ThresholdTooHigh` check.  On error the
persisted state is unchanged (the handler skips `save` and the runtime
rolls back). -/
def Multisig.remove_member (m : Multisig) (member : Pubkey) : Except ProgramError Multisig :=
  let members := m.members.filter (fun y => y != member)
  if members.length = 0 then .error (.Custom MultisigError.NoMembers)
  else if m.threshold > members.length then .error (.Custom MultisigError.ThresholdTooHigh)
  else .ok { m with members := members }

/-- `Multisig::set_threshold`. -/
def Multisig.set_threshold (m : Multisig) (threshold : Nat) : Except ProgramError Multisig :=
  if threshold > m.members.length then .error (.Custom MultisigError.ThresholdTooHigh)
  else if threshold = 0 then .error (.Custom MultisigError.ThresholdTooLow)
  else .ok { m with threshold := threshold }

/-- `Multisig::size`. -/
def Multisig.size (m : Multisig) : Nat :=
  (m.members.length * 32 + 4) + (m.name.length + 4) + 8

/-- The free function `multisig::create` at the state level: starts from
`Multisig::new(name, vec![], threshold)` and folds `add_member` over the
given members to deduplicate them.  No threshold validation is performed. -/
def createMultisig (name : List Nat) (members : List Pubkey) (threshold : Nat) :
    Except ProgramError Multisig :=
  members.foldlM (fun acc x => acc.add_member x)
    { name := name, members := [], threshold := threshold }

/-- `src/proposal.rs` `struct Action`. -/
structure Action where
  program_id : Pubkey
  accounts : List Pubkey
  data : List Nat
deriving DecidableEq, Repr

/-- `Action::size`. -/
def Action.size (a : Action) : Nat :=
  32 + (a.accounts.length * 32 + 4) + (a.data.length + 4)

/-- `src/proposal.rs` `struct Proposal`. -/
structure Proposal where
  id : Nat
  name : List Nat
  description : List Nat
  actions : List Action
  approvers : List Pubkey
  executed : Bool
  multisig : Pubkey
deriving DecidableEq, Repr

/-- `Proposal::has_approved`. -/
def Proposal.has_approved (p : Proposal) (approver : Pubkey) : Bool :=
  p.approvers.contains approver

/-- `Proposal::approve`: membership check, duplicate check, push. -/
def Proposal.approve (p : Proposal) (m : Multisig) (approver : Pubkey) :
    Except ProgramError Proposal :=
  match m.check_member approver with
  | .error e => .error e
  | .ok _ =>
    if p.has_approved approver then .error (.Custom ProposalError.AlreadyApproved)
    else .ok { p with approvers := p.approvers ++ [approver] }

/-- `Proposal::has_reached_threshold`. -/
def Proposal.has_reached_threshold (p : Proposal) (m : Multisig) : Bool :=
  decide (p.approvers.length ≥ m.threshold)

/-- `Proposal::size` (the actions term is a running fold, as in the source
loop starting from the 4-byte vector prefix). -/
def Proposal.size (p : Proposal) : Nat :=
  8 + (p.name.length + 4) + (p.description.length + 4)
    + (p.actions.foldl (fun s a => s + a.size) 4)
    + (p.approvers.length * 32 + 4) + 1 + 32

/-! ### Borsh layout of the native structs (field declaration order) -/

/-- Borsh bytes of a `Multisig`: `name`, `members`, `threshold`. -/
def encodeMultisig (m : Multisig) : List Nat :=
  encodeBytes m.name ++ encodeVec encodePubkey m.members ++ encodeU64 m.threshold

/-- Borsh reader for a `Multisig` (`try_from_slice` up to the trailing
rest). -/
def readMultisig (bs : List Nat) : Option (Multisig × List Nat) :=
  match readBytes bs with
  | none => none
  | some (nm, bs1) =>
    match readVec readPubkey bs1 with
    | none => none
    | some (ms, bs2) =>
      match readU64 bs2 with
      | none => none
      | some (t, bs3) => some ({ name := nm, members := ms, threshold := t }, bs3)

/-- Borsh bytes of an `Action`: `program_id`, `accounts`, `data`. -/
def encodeAction (a : Action) : List Nat :=
  encodePubkey a.program_id ++ encodeVec encodePubkey a.accounts ++ encodeBytes a.data

/-- Borsh reader for an `Action`. -/
def readAction (bs : List Nat) : Option (Action × List Nat) :=
  match readPubkey bs with
  | none => none
  | some (pid, bs1) =>
    match readVec readPubkey bs1 with
    | none => none
    | some (accs, bs2) =>
      match readBytes bs2 with
      | none => none
      | some (d, bs3) => some ({ program_id := pid, accounts := accs, data := d }, bs3)

/-- Borsh bytes of a `Proposal`: `id`, `name`, `description`, `actions`,
`approvers`, `executed`, `multisig`. -/
def encodeProposal (p : Proposal) : List Nat :=
  encodeU64 p.id ++ encodeBytes p.name ++ encodeBytes p.description
    ++ encodeVec encodeAction p.actions ++ encodeVec encodePubkey p.approvers
    ++ encodeBool p.executed ++ encodePubkey p.multisig

/-- Borsh reader for a `Proposal`. -/
def readProposal (bs : List Nat) : Option (Proposal × List Nat) :=
  match readU64 bs with
  | none => none
  | some (i, bs1) =>
    match readBytes bs1 with
    | none => none
    | some (nm, bs2) =>
      match readBytes bs2 with
      | none => none
      | some (d, bs3) =>
        match readVec readAction bs3 with
        | none => none
        | some (acts, bs4) =>
          match readVec readPubkey bs4 with
          | none => none
          | some (apps, bs5) =>
            match readBool bs5 with
            | none => none
            | some (e, bs6) =>
              match readPubkey bs6 with
              | none => none
              | some (ms, bs7) =>
                some ({ id := i, name := nm, description := d, actions := acts,
                        approvers := apps, executed := e, multisig := ms }, bs7)

/-! ### Proposal execution (`proposal.rs::execute`) -/

/-- The observable effect of one `invoke_signed` issued by
`execute_action`: target program, the account addresses consumed for it
(in order) and the raw instruction data. -/
structure Call where
  program_id : Pubkey
  keys : List Pubkey
  data : List Nat
deriving DecidableEq, Repr

/-- The inner loop of `Multisig::execute_action`: pull one supplied account
per declared action account and require the addresses to match
positionally; only after the whole list matches is the cross-program
invocation issued. -/
def checkAccounts : List Pubkey → List AccountInfo → Except ProgramError (List Pubkey)
  | [], _ => .ok []
  | _ :: _, [] => .error .NotEnoughAccountKeys
  | d :: ds, acc :: accs =>
    if acc.key ≠ d then .error .InvalidAccountData
    else
      match checkAccounts ds accs with
      | .error e => .error e
      | .ok ks => .ok (acc.key :: ks)

/-- `Multisig::execute_action`: positional address check, then one
`invoke_signed` for the action. -/
def executeAction (a : Action) (accounts : List AccountInfo) : Except ProgramError Call :=
  match checkAccounts a.accounts accounts with
  | .error e => .error e
  | .ok ks => .ok { program_id := a.program_id, keys := ks, data := a.data }

/-- The dispatch loop of `execute`: for each action,
`next_account_infos(iter, action.accounts.len())` carves the next slice off
the caller-supplied account stream (failing with `NotEnoughAccountKeys` if
it is too short) and `execute_action` runs on that slice.  The result pairs
the calls actually issued (in order) with the first error, if any. -/
def runActions : List Action → List AccountInfo → List Call × Option ProgramError
  | [], _ => ([], none)
  | a :: rest, accounts =>
    if accounts.length < a.accounts.length then ([], some .NotEnoughAccountKeys)
    else
      match executeAction a (accounts.take a.accounts.length) with
      | .error e => ([], some e)
      | .ok c =>
        let r := runActions rest (accounts.drop a.accounts.length)
        (c :: r.1, r.2)

/-- `proposal.rs::execute` at the state level.  The first supplied account
is read (`let _signer = next_account_info(...)?`) but never inspected.
Order of checks as in the source: threshold first, then `executed`.  On the
success path `executed` is set (and saved) before any dispatch.  Returns
the proposal state as persisted by `save`, the calls issued, and the first
error if any (on an error the runtime discards every write of the
invocation). -/
def execute (_signer : AccountInfo) (m : Multisig) (p : Proposal)
    (accounts : List AccountInfo) : Proposal × List Call × Option ProgramError :=
  if !(p.has_reached_threshold m) then
    (p, [], some (.Custom ProposalError.NotEnoughApprovals))
  else if p.executed then
    (p, [], some (.Custom ProposalError.AlreadyExecuted))
  else
    let p2 := { p with executed := true }
    let r := runActions p2.actions accounts
    (p2, r.1, r.2)

end Native

/-! ## `projects/anchor-multisig` — the Anchor implementation -/

namespace Anchor

/-- The errors the Anchor program raises: the nine `CustomErrors` variants
plus `NotEnoughAccountKeys`, the `solana_program` error produced by
`next_account_infos` and propagated through anchor's `Result`. -/
inductive AnchorError where
  | NotAMember
  | ThresholdTooHigh
  | ThresholdTooLow
  | NoMembers
  | AlreadyMember
  | InvalidAccount
  | AlreadyApproved
  | AlreadyExecuted
  | NotEnoughApprovals
  | NotEnoughAccountKeys
deriving DecidableEq, Repr

/-- `action.rs` `struct ActionAccount`. -/
structure ActionAccount where
  pubkey : Pubkey
  is_signer : Bool
  is_writable : Bool
deriving DecidableEq, Repr

/-- `action.rs` `struct Action`. -/
structure Action where
  program_id : Pubkey
  accounts : List ActionAccount
  data : List Nat
deriving DecidableEq, Repr

/-- `Action::size`: `8 + size_of::<Pubkey>() + 4 + accounts.len() *
(size_of::<Pubkey>() + 2) + 4 + data.len()`. -/
def Action.size (a : Action) : Nat :=
  8 + 32 + 4 + a.accounts.length * (32 + 2) + 4 + a.data.length

/-- `multisig.rs` `struct Multisig` (`bump` is a `u8`). -/
structure Multisig where
  name : List Nat
  members : List Pubkey
  threshold : Nat
  bump : Nat
deriving DecidableEq, Repr

/-- `Multisig::is_member`. -/
def Multisig.is_member (m : Multisig) (member : Pubkey) : Bool :=
  m.members.contains member

/-- `Multisig::update_threshold`. -/
def Multisig.update_threshold (m : Multisig) (new_threshold : Nat) :
    Except AnchorError Multisig :=
  if new_threshold > m.members.length then .error .ThresholdTooHigh
  else if new_threshold < 1 then .error .ThresholdTooLow
  else .ok { m with threshold := new_threshold }

/-- `Multisig::add_member`: errors with `AlreadyMember` on a duplicate. -/
def Multisig.add_member (m : Multisig) (member : Pubkey) : Except AnchorError Multisig :=
  if m.is_member member then .error .AlreadyMember
  else .ok { m with members := m.members ++ [member] }

/-- `Multisig::update_members`: emptiness check, threshold check against the
current threshold, then the member list is rebuilt through `add_member`. -/
def Multisig.update_members (m : Multisig) (new_members : List Pubkey) :
    Except AnchorError Multisig :=
  if new_members.length = 0 then .error .NoMembers
  else if new_members.length < m.threshold then .error .ThresholdTooHigh
  else new_members.foldlM (fun acc x => acc.add_member x) { m with members := [] }

/-- `Multisig::remove_member`: `NotAMember` check, `retain`, then the
`ThresholdTooHigh` check, then the `NoMembers` check. -/
def Multisig.remove_member (m : Multisig) (member : Pubkey) : Except AnchorError Multisig :=
  if !(m.is_member member) then .error .NotAMember
  else
    let members := m.members.filter (fun y => y != member)
    if members.length < m.threshold then .error .ThresholdTooHigh
    else if members.length = 0 then .error .NoMembers
    else .ok { m with members := members }

/-- `Multisig::size` / `Multisig::static_size`: 8-byte account
discriminator + 4 + name + 4 + 32·members + 8 + 1. -/
def Multisig.size (m : Multisig) : Nat :=
  8 + 4 + m.name.length + 4 + m.members.length * 32 + 8 + 1

/-- `lib.rs::create` at the state level: the account starts from
`Multisig::default()`, then `name` is assigned, `update_members` and
`update_threshold` run, and the bump is stored. -/
def create (name : List Nat) (members : List Pubkey) (threshold : Nat) (bump : Nat) :
    Except AnchorError Multisig :=
  let m0 : Multisig := { name := name, members := [], threshold := 0, bump := 0 }
  match m0.update_members members with
  | .error e => .error e
  | .ok m1 =>
    match m1.update_threshold threshold with
    | .error e => .error e
    | .ok m2 => .ok { m2 with bump := bump }

/-- `proposal.rs` `struct Proposal`. -/
structure Proposal where
  id : Nat
  actions : List Action
  executed : Bool
  approvers : List Pubkey
  bump : Nat
deriving DecidableEq, Repr

/-- `Proposal::approve`: duplicate check, push.  (Membership of the signer
is enforced by the `ApproveProposal` account constraint, outside this
method.) -/
def Proposal.approve (p : Proposal) (signer : Pubkey) : Except AnchorError Proposal :=
  if p.approvers.contains signer then .error .AlreadyApproved
  else .ok { p with approvers := p.approvers ++ [signer] }

/-- `Proposal::check_executed`. -/
def Proposal.check_executed (p : Proposal) : Except AnchorError Unit :=
  if p.executed then .error .AlreadyExecuted else .ok ()

/-- `Proposal::check_threshold`. -/
def Proposal.check_threshold (p : Proposal) (m : Multisig) : Except AnchorError Unit :=
  if p.approvers.length < m.threshold then .error .NotEnoughApprovals else .ok ()

/-- `Proposal::size` / `static_size`: 8-byte discriminator + 8 (id) +
(4 + Σ `Action::size`) + 1 (executed) + 4 + 32·approvers + 1 (bump). -/
def Proposal.size (p : Proposal) : Nat :=
  8 + 8 + (p.actions.foldl (fun s a => s + a.size) 4) + 1
    + 4 + p.approvers.length * 32 + 1

/-! ### Borsh layout of the Anchor structs (`AnchorSerialize` on the
fields; the 8-byte account discriminator of `#[account]` types is *not*
part of these bytes and is accounted separately). -/

/-- Borsh bytes of an `ActionAccount`: `pubkey`, `is_signer`,
`is_writable`. -/
def encodeActionAccount (x : ActionAccount) : List Nat :=
  encodePubkey x.pubkey ++ encodeBool x.is_signer ++ encodeBool x.is_writable

def readActionAccount (bs : List Nat) : Option (ActionAccount × List Nat) :=
  match readPubkey bs with
  | none => none
  | some (k, bs1) =>
    match readBool bs1 with
    | none => none
    | some (s, bs2) =>
      match readBool bs2 with
      | none => none
      | some (w, bs3) => some ({ pubkey := k, is_signer := s, is_writable := w }, bs3)

/-- Borsh bytes of an anchor `Action`: `program_id`, `accounts`, `data`. -/
def encodeAction (a : Action) : List Nat :=
  encodePubkey a.program_id ++ encodeVec encodeActionAccount a.accounts ++ encodeBytes a.data

def readAction (bs : List Nat) : Option (Action × List Nat) :=
  match readPubkey bs with
  | none => none
  | some (pid, bs1) =>
    match readVec readActionAccount bs1 with
    | none => none
    | some (accs, bs2) =>
      match readBytes bs2 with
      | none => none
      | some (d, bs3) => some ({ program_id := pid, accounts := accs, data := d }, bs3)

/-- Borsh bytes of the anchor `Multisig` fields: `name`, `members`,
`threshold`, `bump`. -/
def encodeMultisig (m : Multisig) : List Nat :=
  encodeBytes m.name ++ encodeVec encodePubkey m.members
    ++ encodeU64 m.threshold ++ encodeU8 m.bump

def readMultisig (bs : List Nat) : Option (Multisig × List Nat) :=
  match readBytes bs with
  | none => none
  | some (nm, bs1) =>
    match readVec readPubkey bs1 with
    | none => none
    | some (ms, bs2) =>
      match readU64 bs2 with
      | none => none
      | some (t, bs3) =>
        match readU8 bs3 with
        | none => none
        | some (b, bs4) =>
          some ({ name := nm, members := ms, threshold := t, bump := b }, bs4)

/-- Borsh bytes of the anchor `Proposal` fields: `id`, `actions`,
`executed`, `approvers`, `bump`. -/
def encodeProposal (p : Proposal) : List Nat :=
  encodeU64 p.id ++ encodeVec encodeAction p.actions ++ encodeBool p.executed
    ++ encodeVec encodePubkey p.approvers ++ encodeU8 p.bump

def readProposal (bs : List Nat) : Option (Proposal × List Nat) :=
  match readU64 bs with
  | none => none
  | some (i, bs1) =>
    match readVec readAction bs1 with
    | none => none
    | some (acts, bs2) =>
      match readBool bs2 with
      | none => none
      | some (e, bs3) =>
        match readVec readPubkey bs3 with
        | none => none
        | some (apps, bs4) =>
          match readU8 bs4 with
          | none => none
          | some (b, bs5) =>
            some ({ id := i, actions := acts, executed := e,
                    approvers := apps, bump := b }, bs5)

/-! ### Proposal execution (`lib.rs::execute_proposal`) -/

/-- One `invoke_signed` issued by `Multisig::execute`: the outgoing
instruction's program, account metas and data. -/
structure Call where
  program_id : Pubkey
  metas : List AccountMeta
  data : List Nat
deriving DecidableEq, Repr

/-- The meta-building loop of `Multisig::execute`: each declared action
account must match the next supplied account by address; its
`is_signer`/`is_writable` flags populate the outgoing `AccountMeta`. -/
def buildMetas : List ActionAccount → List AccountInfo → Except AnchorError (List AccountMeta)
  | [], _ => .ok []
  | _ :: _, [] => .error .NotEnoughAccountKeys
  | d :: ds, acc :: accs =>
    if acc.key ≠ d.pubkey then .error .InvalidAccount
    else
      match buildMetas ds accs with
      | .error e => .error e
      | .ok ms =>
        .ok ({ pubkey := acc.key, is_signer := d.is_signer,
               is_writable := d.is_writable } :: ms)

/-- `Multisig::execute`: the metas are built (aborting on the first address
mismatch) and only then is the single `invoke_signed` for the action
issued. -/
def Multisig.execute (_m : Multisig) (a : Action) (accounts : List AccountInfo) :
    Except AnchorError Call :=
  match buildMetas a.accounts accounts with
  | .error e => .error e
  | .ok ms => .ok { program_id := a.program_id, metas := ms, data := a.data }

/-- The dispatch loop of `execute_proposal`: per action,
`next_account_infos(iter, action.accounts.len())` carves the next slice off
`remaining_accounts`, then `multisig.execute` runs on it.  Returns the
calls issued in order plus the first error, if any. -/
def runActions (m : Multisig) : List Action → List AccountInfo → List Call × Option AnchorError
  | [], _ => ([], none)
  | a :: rest, accounts =>
    if accounts.length < a.accounts.length then ([], some .NotEnoughAccountKeys)
    else
      match m.execute a (accounts.take a.accounts.length) with
      | .error e => ([], some e)
      | .ok c =>
        let r := runActions m rest (accounts.drop a.accounts.length)
        (c :: r.1, r.2)

/-- `lib.rs::execute_proposal`: `check_executed` first, then
`check_threshold`, then `executed = true`, then the dispatch loop over
`remaining_accounts`.  The `ExecuteProposal` account context contains only
the multisig and the proposal — no caller/signer account exists. -/
def executeProposal (m : Multisig) (p : Proposal) (remaining : List AccountInfo) :
    Proposal × List Call × Option AnchorError :=
  match p.check_executed with
  | .error e => (p, [], some e)
  | .ok _ =>
    match p.check_threshold m with
    | .error e => (p, [], some e)
    | .ok _ =>
      let p2 := { p with executed := true }
      let r := runActions m p2.actions remaining
      (p2, r.1, r.2)

end Anchor

/-! ## Size and round-trip lemmas -/

theorem foldl_add_eq (f : α → Nat) :
    ∀ (l : List α) (c : Nat), l.foldl (fun s a => s + f a) c = c + (l.map f).sum := by
  intro l
  induction l with
  | nil => intro c; simp
  | cons x tl ih => intro c; simp [List.foldl_cons, ih]; omega

theorem length_encodeMultisigN (m : Native.Multisig) :
    (Native.encodeMultisig m).length = m.size := by
  simp [Native.encodeMultisig, Native.Multisig.size, encodeBytes, length_encodeLE,
    length_encodeVec, encodePubkey, sum_map_const_32]
  omega

theorem length_encodeActionN (a : Native.Action) :
    (Native.encodeAction a).length = a.size := by
  simp [Native.encodeAction, Native.Action.size, encodeBytes, length_encodeLE,
    length_encodeVec, encodePubkey, sum_map_const_32]
  omega

theorem length_encodeProposalN (p : Native.Proposal) :
    (Native.encodeProposal p).length = p.size := by
  have hf : (fun a => (Native.encodeAction a).length) = Native.Action.size :=
    funext length_encodeActionN
  simp [Native.encodeProposal, Native.Proposal.size, encodeBytes, length_encodeLE,
    length_encodeVec, encodePubkey, encodeBool, sum_map_const_32, hf, foldl_add_eq]
  omega

theorem readMultisigN_encode (m : Native.Multisig) (rest : List Nat)
    (h1 : m.name.length < 2 ^ 32) (h2 : m.members.length < 2 ^ 32)
    (h3 : m.threshold < 2 ^ 64) :
    Native.readMultisig (Native.encodeMultisig m ++ rest) = some (m, rest) := by
  have e1 := readBytes_append m.name
    (encodeVec encodePubkey m.members ++ (encodeU64 m.threshold ++ rest)) h1
  have e2 := readVec_append readPubkey encodePubkey m.members
    (encodeU64 m.threshold ++ rest) h2 (fun x _ r => readPubkey_append x r)
  have e3 := readU64_append m.threshold rest h3
  simp only [Native.encodeMultisig, List.append_assoc, Native.readMultisig, e1, e2, e3]

theorem readActionN_encode (a : Native.Action) (rest : List Nat)
    (h1 : a.accounts.length < 2 ^ 32) (h2 : a.data.length < 2 ^ 32) :
    Native.readAction (Native.encodeAction a ++ rest) = some (a, rest) := by
  have e1 := readPubkey_append a.program_id
    (encodeVec encodePubkey a.accounts ++ (encodeBytes a.data ++ rest))
  have e2 := readVec_append readPubkey encodePubkey a.accounts
    (encodeBytes a.data ++ rest) h1 (fun x _ r => readPubkey_append x r)
  have e3 := readBytes_append a.data rest h2
  simp only [Native.encodeAction, List.append_assoc, Native.readAction, e1, e2, e3]

theorem readProposalN_encode (p : Native.Proposal) (rest : List Nat)
    (h1 : p.id < 2 ^ 64) (h2 : p.name.length < 2 ^ 32)
    (h3 : p.description.length < 2 ^ 32) (h4 : p.actions.length < 2 ^ 32)
    (h5 : ∀ a ∈ p.actions, a.accounts.length < 2 ^ 32 ∧ a.data.length < 2 ^ 32)
    (h6 : p.approvers.length < 2 ^ 32) :
    Native.readProposal (Native.encodeProposal p ++ rest) = some (p, rest) := by
  have e1 := readU64_append p.id
    (encodeBytes p.name ++ (encodeBytes p.description ++ (encodeVec Native.encodeAction p.actions
      ++ (encodeVec encodePubkey p.approvers ++ (encodeBool p.executed
      ++ (encodePubkey p.multisig ++ rest)))))) h1
  have e2 := readBytes_append p.name
    (encodeBytes p.description ++ (encodeVec Native.encodeAction p.actions
      ++ (encodeVec encodePubkey p.approvers ++ (encodeBool p.executed
      ++ (encodePubkey p.multisig ++ rest))))) h2
  have e3 := readBytes_append p.description
    (encodeVec Native.encodeAction p.actions
      ++ (encodeVec encodePubkey p.approvers ++ (encodeBool p.executed
      ++ (encodePubkey p.multisig ++ rest)))) h3
  have e4 := readVec_append Native.readAction Native.encodeAction p.actions
    (encodeVec encodePubkey p.approvers ++ (encodeBool p.executed
      ++ (encodePubkey p.multisig ++ rest))) h4
    (fun x hx r => readActionN_encode x r (h5 x hx).1 (h5 x hx).2)
  have e5 := readVec_append readPubkey encodePubkey p.approvers
    (encodeBool p.executed ++ (encodePubkey p.multisig ++ rest)) h6
    (fun x _ r => readPubkey_append x r)
  have e6 := readBool_append p.executed (encodePubkey p.multisig ++ rest)
  have e7 := readPubkey_append p.multisig rest
  simp only [Native.encodeProposal, List.append_assoc, Native.readProposal,
    e1, e2, e3, e4, e5, e6, e7]

theorem length_encodeActionAccount (x : Anchor.ActionAccount) :
    (Anchor.encodeActionAccount x).length = 34 := by
  simp [Anchor.encodeActionAccount, encodePubkey, encodeBool, length_encodeLE]

theorem length_encodeActionA (a : Anchor.Action) :
    a.size = (Anchor.encodeAction a).length + 8 := by
  have hf : (fun x => (Anchor.encodeActionAccount x).length) =
      (fun _ : Anchor.ActionAccount => (34 : Nat)) :=
    funext length_encodeActionAccount
  simp [Anchor.encodeAction, Anchor.Action.size, encodeBytes, length_encodeLE,
    length_encodeVec, encodePubkey, hf, sum_map_constant]
  omega

theorem length_encodeMultisigA (m : Anchor.Multisig) :
    m.size = 8 + (Anchor.encodeMultisig m).length := by
  simp [Anchor.encodeMultisig, Anchor.Multisig.size, encodeBytes, length_encodeLE,
    length_encodeVec, encodePubkey, sum_map_const_32]
  omega

theorem length_encodeProposalA (p : Anchor.Proposal) :
    p.size = 8 + (Anchor.encodeProposal p).length + 8 * p.actions.length := by
  have hf : ∀ a : Anchor.Action, (Anchor.encodeAction a).length = a.size - 8 := by
    intro a; have := length_encodeActionA a; omega
  have hf2 : (fun a => (Anchor.encodeAction a).length) = (fun a : Anchor.Action => a.size - 8) :=
    funext hf
  have hsum : ((p.actions.map fun a : Anchor.Action => a.size - 8).sum) + 8 * p.actions.length
      = (p.actions.map Anchor.Action.size).sum := by
    induction p.actions with
    | nil => simp
    | cons x tl ih =>
      have hx : 8 ≤ x.size := by simp [Anchor.Action.size]; omega
      simp only [List.map_cons, List.sum_cons, List.length_cons]
      omega
  simp [Anchor.encodeProposal, Anchor.Proposal.size, encodeBytes, length_encodeLE,
    length_encodeVec, encodePubkey, encodeBool, hf2, foldl_add_eq, ← hsum]
  omega

theorem readActionAccount_encode (x : Anchor.ActionAccount) (rest : List Nat) :
    Anchor.readActionAccount (Anchor.encodeActionAccount x ++ rest) = some (x, rest) := by
  have e1 := readPubkey_append x.pubkey
    (encodeBool x.is_signer ++ (encodeBool x.is_writable ++ rest))
  have e2 := readBool_append x.is_signer (encodeBool x.is_writable ++ rest)
  have e3 := readBool_append x.is_writable rest
  simp only [Anchor.encodeActionAccount, List.append_assoc, Anchor.readActionAccount,
    e1, e2, e3]

theorem readActionA_encode (a : Anchor.Action) (rest : List Nat)
    (h1 : a.accounts.length < 2 ^ 32) (h2 : a.data.length < 2 ^ 32) :
    Anchor.readAction (Anchor.encodeAction a ++ rest) = some (a, rest) := by
  have e1 := readPubkey_append a.program_id
    (encodeVec Anchor.encodeActionAccount a.accounts ++ (encodeBytes a.data ++ rest))
  have e2 := readVec_append Anchor.readActionAccount Anchor.encodeActionAccount a.accounts
    (encodeBytes a.data ++ rest) h1 (fun x _ r => readActionAccount_encode x r)
  have e3 := readBytes_append a.data rest h2
  simp only [Anchor.encodeAction, List.append_assoc, Anchor.readAction, e1, e2, e3]

theorem readMultisigA_encode (m : Anchor.Multisig) (rest : List Nat)
    (h1 : m.name.length < 2 ^ 32) (h2 : m.members.length < 2 ^ 32)
    (h3 : m.threshold < 2 ^ 64) (h4 : m.bump < 256) :
    Anchor.readMultisig (Anchor.encodeMultisig m ++ rest) = some (m, rest) := by
  have e1 := readBytes_append m.name
    (encodeVec encodePubkey m.members ++ (encodeU64 m.threshold ++ (encodeU8 m.bump ++ rest))) h1
  have e2 := readVec_append readPubkey encodePubkey m.members
    (encodeU64 m.threshold ++ (encodeU8 m.bump ++ rest)) h2 (fun x _ r => readPubkey_append x r)
  have e3 := readU64_append m.threshold (encodeU8 m.bump ++ rest) h3
  have e4 := readU8_append m.bump rest h4
  simp only [Anchor.encodeMultisig, List.append_assoc, Anchor.readMultisig, e1, e2, e3, e4]

theorem readProposalA_encode (p : Anchor.Proposal) (rest : List Nat)
    (h1 : p.id < 2 ^ 64) (h2 : p.actions.length < 2 ^ 32)
    (h3 : ∀ a ∈ p.actions, a.accounts.length < 2 ^ 32 ∧ a.data.length < 2 ^ 32)
    (h4 : p.approvers.length < 2 ^ 32) (h5 : p.bump < 256) :
    Anchor.readProposal (Anchor.encodeProposal p ++ rest) = some (p, rest) := by
  have e1 := readU64_append p.id
    (encodeVec Anchor.encodeAction p.actions ++ (encodeBool p.executed
      ++ (encodeVec encodePubkey p.approvers ++ (encodeU8 p.bump ++ rest)))) h1
  have e2 := readVec_append Anchor.readAction Anchor.encodeAction p.actions
    (encodeBool p.executed ++ (encodeVec encodePubkey p.approvers ++ (encodeU8 p.bump ++ rest)))
    h2 (fun x hx r => readActionA_encode x r (h3 x hx).1 (h3 x hx).2)
  have e3 := readBool_append p.executed
    (encodeVec encodePubkey p.approvers ++ (encodeU8 p.bump ++ rest))
  have e4 := readVec_append readPubkey encodePubkey p.approvers
    (encodeU8 p.bump ++ rest) h4 (fun x _ r => readPubkey_append x r)
  have e5 := readU8_append p.bump rest h5
  simp only [Anchor.encodeProposal, List.append_assoc, Anchor.readProposal,
    e1, e2, e3, e4, e5]

/-! ## Dispatch-loop lemmas -/

namespace Native

/-- The call `execute` issues for an action whose supplied accounts all
match. -/
def toCall (a : Action) : Call :=
  { program_id := a.program_id, keys := a.accounts, data := a.data }

theorem checkAccounts_ok :
    ∀ (ds : List Pubkey) (accs : List AccountInfo),
      accs.map AccountInfo.key = ds → checkAccounts ds accs = .ok ds := by
  intro ds
  induction ds with
  | nil =>
    intro accs h
    cases accs with
    | nil => rfl
    | cons a tl => simp at h
  | cons d tl ih =>
    intro accs h
    cases accs with
    | nil => simp at h
    | cons a atl =>
      simp only [List.map_cons, List.cons.injEq] at h
      simp [checkAccounts, h.1, ih atl h.2]

theorem checkAccounts_mismatch :
    ∀ (ds : List Pubkey) (accs : List AccountInfo),
      accs.length = ds.length → accs.map AccountInfo.key ≠ ds →
      checkAccounts ds accs = .error .InvalidAccountData := by
  intro ds
  induction ds with
  | nil =>
    intro accs hl hne
    cases accs with
    | nil => simp at hne
    | cons a tl => simp at hl
  | cons d tl ih =>
    intro accs hl hne
    cases accs with
    | nil => simp at hl
    | cons a atl =>
      by_cases hk : a.key = d
      · have hne2 : atl.map AccountInfo.key ≠ tl := by
          intro he; exact hne (by simp [hk, he])
        have hl2 : atl.length = tl.length := by simpa using hl
        simp [checkAccounts, hk, ih atl hl2 hne2]
      · simp [checkAccounts, hk]

theorem executeAction_ok (a : Action) (accs : List AccountInfo)
    (h : accs.map AccountInfo.key = a.accounts) :
    executeAction a accs = .ok (toCall a) := by
  simp [executeAction, checkAccounts_ok a.accounts accs h, toCall]

theorem executeAction_mismatch (a : Action) (accs : List AccountInfo)
    (hl : accs.length = a.accounts.length) (hne : accs.map AccountInfo.key ≠ a.accounts) :
    executeAction a accs = .error .InvalidAccountData := by
  simp [executeAction, checkAccounts_mismatch a.accounts accs hl hne]

/-- `slice` supplies exactly the accounts one action declares, address by
address. -/
def SliceMatches (a : Action) (slice : List AccountInfo) : Prop :=
  slice.map AccountInfo.key = a.accounts

theorem sliceMatches_length {a : Action} {slice : List AccountInfo}
    (h : SliceMatches a slice) : slice.length = a.accounts.length := by
  have := congrArg List.length h
  simpa using this

theorem runActions_all_ok :
    ∀ (actions : List Action) (slices : List (List AccountInfo)),
      List.Forall₂ SliceMatches actions slices →
      ∀ (extra : List AccountInfo),
        runActions actions (slices.flatten ++ extra) = (actions.map toCall, none) := by
  intro actions slices h
  induction h with
  | nil => intro extra; simp [runActions]
  | @cons a slice atl stl ha _ ih =>
    intro extra
    have hlen : slice.length = a.accounts.length := sliceMatches_length ha
    have hcond : ¬ ((slice ++ (stl.flatten ++ extra)).length < a.accounts.length) := by
      simp [← hlen]
    have htake : (slice ++ (stl.flatten ++ extra)).take a.accounts.length = slice := by
      rw [← hlen]; exact List.take_left slice _
    have hdrop : (slice ++ (stl.flatten ++ extra)).drop a.accounts.length
        = stl.flatten ++ extra := by
      rw [← hlen]; exact List.drop_left slice _
    simp only [List.flatten_cons, List.append_assoc, runActions, if_neg hcond, htake, hdrop,
      executeAction_ok a slice ha, ih extra, List.map_cons]

theorem runActions_abort :
    ∀ (pre : List Action) (slices : List (List AccountInfo)),
      List.Forall₂ SliceMatches pre slices →
      ∀ (bad : Action) (badSlice : List AccountInfo) (post : List Action)
        (extra : List AccountInfo),
        badSlice.length = bad.accounts.length →
        badSlice.map AccountInfo.key ≠ bad.accounts →
        runActions (pre ++ bad :: post) (slices.flatten ++ (badSlice ++ extra))
          = (pre.map toCall, some .InvalidAccountData) := by
  intro pre slices h
  induction h with
  | nil =>
    intro bad badSlice post extra hbl hbne
    have hcond : ¬ ((badSlice ++ extra).length < bad.accounts.length) := by
      simp [← hbl]
    have htake : (badSlice ++ extra).take bad.accounts.length = badSlice := by
      rw [← hbl]; exact List.take_left badSlice extra
    simp only [List.flatten_nil, List.nil_append, List.map_nil, runActions, if_neg hcond,
      htake, executeAction_mismatch bad badSlice hbl hbne]
  | @cons a slice atl stl ha _ ih =>
    intro bad badSlice post extra hbl hbne
    have hlen : slice.length = a.accounts.length := sliceMatches_length ha
    have hcond : ¬ ((slice ++ (stl.flatten ++ (badSlice ++ extra))).length
        < a.accounts.length) := by
      simp [← hlen]
    have htake : (slice ++ (stl.flatten ++ (badSlice ++ extra))).take a.accounts.length
        = slice := by
      rw [← hlen]; exact List.take_left slice _
    have hdrop : (slice ++ (stl.flatten ++ (badSlice ++ extra))).drop a.accounts.length
        = stl.flatten ++ (badSlice ++ extra) := by
      rw [← hlen]; exact List.drop_left slice _
    simp only [List.cons_append, List.flatten_cons, List.append_assoc, runActions,
      if_neg hcond, htake, hdrop, executeAction_ok a slice ha, List.append_eq,
      ih bad badSlice post extra hbl hbne, List.map_cons]

end Native

namespace Anchor

/-- The account meta an `ActionAccount` declares. -/
def toMeta (d : ActionAccount) : AccountMeta :=
  { pubkey := d.pubkey, is_signer := d.is_signer, is_writable := d.is_writable }

/-- The call `Multisig::execute` issues for an action whose supplied
accounts all match. -/
def toCall (a : Action) : Call :=
  { program_id := a.program_id, metas := a.accounts.map toMeta, data := a.data }

theorem buildMetas_ok :
    ∀ (ds : List ActionAccount) (accs : List AccountInfo),
      accs.map AccountInfo.key = ds.map ActionAccount.pubkey →
      buildMetas ds accs = .ok (ds.map toMeta) := by
  intro ds
  induction ds with
  | nil =>
    intro accs h
    cases accs with
    | nil => rfl
    | cons a tl => simp at h
  | cons d tl ih =>
    intro accs h
    cases accs with
    | nil => simp at h
    | cons a atl =>
      simp only [List.map_cons, List.cons.injEq] at h
      simp [buildMetas, h.1, ih atl h.2, toMeta]

theorem buildMetas_mismatch :
    ∀ (ds : List ActionAccount) (accs : List AccountInfo),
      accs.length = ds.length →
      accs.map AccountInfo.key ≠ ds.map ActionAccount.pubkey →
      buildMetas ds accs = .error .InvalidAccount := by
  intro ds
  induction ds with
  | nil =>
    intro accs hl hne
    cases accs with
    | nil => simp at hne
    | cons a tl => simp at hl
  | cons d tl ih =>
    intro accs hl hne
    cases accs with
    | nil => simp at hl
    | cons a atl =>
      by_cases hk : a.key = d.pubkey
      · have hne2 : atl.map AccountInfo.key ≠ tl.map ActionAccount.pubkey := by
          intro he; exact hne (by simp [hk, he])
        have hl2 : atl.length = tl.length := by simpa using hl
        simp [buildMetas, hk, ih atl hl2 hne2]
      · simp [buildMetas, hk]

theorem mExecute_ok (m : Multisig) (a : Action) (accs : List AccountInfo)
    (h : accs.map AccountInfo.key = a.accounts.map ActionAccount.pubkey) :
    m.execute a accs = .ok (toCall a) := by
  simp [Multisig.execute, buildMetas_ok a.accounts accs h, toCall]

theorem mExecute_mismatch (m : Multisig) (a : Action) (accs : List AccountInfo)
    (hl : accs.length = a.accounts.length)
    (hne : accs.map AccountInfo.key ≠ a.accounts.map ActionAccount.pubkey) :
    m.execute a accs = .error .InvalidAccount := by
  have hl2 : accs.length = (a.accounts.map ActionAccount.pubkey).length := by
    simpa using hl
  simp [Multisig.execute, buildMetas_mismatch a.accounts accs (by simpa using hl2) hne]

/-- `slice` supplies exactly the accounts one action declares, address by
address. -/
def SliceMatches (a : Action) (slice : List AccountInfo) : Prop :=
  slice.map AccountInfo.key = a.accounts.map ActionAccount.pubkey

theorem sliceMatchesA_length {a : Action} {slice : List AccountInfo}
    (h : SliceMatches a slice) : slice.length = a.accounts.length := by
  have := congrArg List.length h
  simpa using this

theorem runActionsA_all_ok (m : Multisig) :
    ∀ (actions : List Action) (slices : List (List AccountInfo)),
      List.Forall₂ SliceMatches actions slices →
      ∀ (extra : List AccountInfo),
        runActions m actions (slices.flatten ++ extra) = (actions.map toCall, none) := by
  intro actions slices h
  induction h with
  | nil => intro extra; simp [runActions]
  | @cons a slice atl stl ha _ ih =>
    intro extra
    have hlen : slice.length = a.accounts.length := sliceMatchesA_length ha
    have hcond : ¬ ((slice ++ (stl.flatten ++ extra)).length < a.accounts.length) := by
      simp [← hlen]
    have htake : (slice ++ (stl.flatten ++ extra)).take a.accounts.length = slice := by
      rw [← hlen]; exact List.take_left slice _
    have hdrop : (slice ++ (stl.flatten ++ extra)).drop a.accounts.length
        = stl.flatten ++ extra := by
      rw [← hlen]; exact List.drop_left slice _
    simp only [List.flatten_cons, List.append_assoc, runActions, if_neg hcond, htake, hdrop,
      mExecute_ok m a slice ha, ih extra, List.map_cons]

theorem runActionsA_abort (m : Multisig) :
    ∀ (pre : List Action) (slices : List (List AccountInfo)),
      List.Forall₂ SliceMatches pre slices →
      ∀ (bad : Action) (badSlice : List AccountInfo) (post : List Action)
        (extra : List AccountInfo),
        badSlice.length = bad.accounts.length →
        badSlice.map AccountInfo.key ≠ bad.accounts.map ActionAccount.pubkey →
        runActions m (pre ++ bad :: post) (slices.flatten ++ (badSlice ++ extra))
          = (pre.map toCall, some .InvalidAccount) := by
  intro pre slices h
  induction h with
  | nil =>
    intro bad badSlice post extra hbl hbne
    have hcond : ¬ ((badSlice ++ extra).length < bad.accounts.length) := by
      simp [← hbl]
    have htake : (badSlice ++ extra).take bad.accounts.length = badSlice := by
      rw [← hbl]; exact List.take_left badSlice extra
    simp only [List.flatten_nil, List.nil_append, List.map_nil, runActions, if_neg hcond,
      htake, mExecute_mismatch m bad badSlice hbl hbne]
  | @cons a slice atl stl ha _ ih =>
    intro bad badSlice post extra hbl hbne
    have hlen : slice.length = a.accounts.length := sliceMatchesA_length ha
    have hcond : ¬ ((slice ++ (stl.flatten ++ (badSlice ++ extra))).length
        < a.accounts.length) := by
      simp [← hlen]
    have htake : (slice ++ (stl.flatten ++ (badSlice ++ extra))).take a.accounts.length
        = slice := by
      rw [← hlen]; exact List.take_left slice _
    have hdrop : (slice ++ (stl.flatten ++ (badSlice ++ extra))).drop a.accounts.length
        = stl.flatten ++ (badSlice ++ extra) := by
      rw [← hlen]; exact List.drop_left slice _
    simp only [List.cons_append, List.flatten_cons, List.append_assoc, runActions,
      if_neg hcond, htake, hdrop, mExecute_ok m a slice ha, List.append_eq,
      ih bad badSlice post extra hbl hbne, List.map_cons]

end Anchor

/-! ## Concrete values used by witnesses and counterexamples -/

def kA : Pubkey := ⟨0, by norm_num⟩

def kB : Pubkey := ⟨1, by norm_num⟩

def kC : Pubkey := ⟨2, by norm_num⟩

/-! ## The claims -/

/-- Core fact about a successful native `approve`: the approver was a
member and the result is exactly the proposal with the approver appended. -/
theorem native_approve_ok (m : Native.Multisig) (p p' : Native.Proposal) (a : Pubkey)
    (h : Native.Proposal.approve p m a = .ok p') :
    m.is_member a = true ∧ p' = { p with approvers := p.approvers ++ [a] } := by
  by_cases hm : m.is_member a
  · have hcm : Native.Multisig.check_member m a = .ok () := by
      simp [Native.Multisig.check_member, hm]
    by_cases hap : p.has_approved a
    · simp [Native.Proposal.approve, hcm, hap] at h
    · simp [Native.Proposal.approve, hcm, hap] at h
      exact ⟨hm, h.symm⟩
  · have hcm : Native.Multisig.check_member m a
        = .error (.Custom MultisigError.NotAMember) := by
      simp [Native.Multisig.check_member, hm]
    simp [Native.Proposal.approve, hcm] at h


/-- C10: after a successful `remove_member(a)` the address `a` is not a
member at all, even if it occurred several times in the stored member
list: `retain` deletes every occurrence. -/
theorem claim_C10 (m m' : Native.Multisig) (a : Pubkey)
    (h : Native.Multisig.remove_member m a = .ok m') :
    m'.is_member a = false ∧ m'.members = m.members.filter (fun y => y != a) := by
  simp only [Native.Multisig.remove_member] at h
  by_cases h1 : (m.members.filter (fun y => y != a)).length = 0
  · simp [h1] at h
  · by_cases h2 : m.threshold > (m.members.filter (fun y => y != a)).length
    · simp [h1, h2] at h
    · simp [h1, h2] at h
      subst h
      constructor
      · simp [Native.Multisig.is_member]
      · rfl

/-- C10 witness: a member list holding `kA` twice; removal leaves no
occurrence. -/
theorem claim_C10_witness :
    Native.Multisig.remove_member { name := [], members := [kA, kB, kA], threshold := 1 } kA
      = Except.ok { name := [], members := [kB], threshold := 1 } ∧
    Native.Multisig.is_member { name := [], members := [kB], threshold := 1 } kA = false := by
  refine ⟨by decide, ?_⟩
  exact (claim_C10 { name := [], members := [kA, kB, kA], threshold := 1 }
    { name := [], members := [kB], threshold := 1 } kA (by decide)).1

/-- C9: a successful `Proposal::approve` changes only the `approvers`
field — `id`, `name`, `description`, `actions`, `executed` and the
multisig back-reference are untouched, and `approvers` is exactly the old
list with the approver appended. -/
theorem claim_C9 (m : Native.Multisig) (p p' : Native.Proposal) (a : Pubkey)
    (h : Native.Proposal.approve p m a = .ok p') :
    p'.id = p.id ∧ p'.name = p.name ∧ p'.description = p.description ∧
    p'.actions = p.actions ∧ p'.executed = p.executed ∧ p'.multisig = p.multisig ∧
    p'.approvers = p.approvers ++ [a] := by
  by_cases hm : m.is_member a
  · have hcm : Native.Multisig.check_member m a = .ok () := by
      simp [Native.Multisig.check_member, hm]
    by_cases hap : p.has_approved a
    · simp [Native.Proposal.approve, hcm, hap] at h
    · simp [Native.Proposal.approve, hcm, hap] at h
      subst h
      simp
  · have hcm : Native.Multisig.check_member m a
        = .error (.Custom MultisigError.NotAMember) := by
      simp [Native.Multisig.check_member, hm]
    simp [Native.Proposal.approve, hcm] at h

/-- C9 witness at a concrete proposal. -/
theorem claim_C9_witness :
    Native.Proposal.approve
        { id := 7, name := [1], description := [2], actions := [], approvers := [],
          executed := false, multisig := kC }
        { name := [], members := [kA], threshold := 1 } kA
      = Except.ok
        { id := 7, name := [1], description := [2], actions := [], approvers := [kA],
          executed := false, multisig := kC } ∧
    ({ id := 7, name := [1], description := [2], actions := [], approvers := [kA],
       executed := false, multisig := kC } : Native.Proposal).approvers = [] ++ [kA] := by
  refine ⟨by decide, ?_⟩
  exact (claim_C9 { name := [], members := [kA], threshold := 1 }
    { id := 7, name := [1], description := [2], actions := [], approvers := [],
      executed := false, multisig := kC }
    { id := 7, name := [1], description := [2], actions := [], approvers := [kA],
      executed := false, multisig := kC } kA (by decide)).2.2.2.2.2.2

/-- C8: `proposal.rs::execute` reads the first supplied account but never
inspects its key or signer flag, so the outcome is identical for any two
first accounts; and whenever the proposal is unexecuted and the approver
count meets the group threshold the executed flag is set regardless of who
the caller is.  (The Anchor variant's `ExecuteProposal` context does not
even contain a caller account.) -/
theorem claim_C8 (s s' : AccountInfo) (m : Native.Multisig) (p : Native.Proposal)
    (accounts : List AccountInfo)
    (hx : p.executed = false) (hth : p.has_reached_threshold m = true) :
    Native.execute s m p accounts = Native.execute s' m p accounts ∧
    (Native.execute s m p accounts).1.executed = true := by
  refine ⟨rfl, ?_⟩
  simp [Native.execute, hth, hx]

/-- C8 witness: an unexecuted, fully-approved proposal is executed no
matter which account is passed first. -/
theorem claim_C8_witness :
    Native.execute { key := kA, is_signer := false }
        { name := [], members := [kA], threshold := 1 }
        { id := 0, name := [], description := [], actions := [], approvers := [kA],
          executed := false, multisig := kC } []
      = Native.execute { key := kB, is_signer := true }
        { name := [], members := [kA], threshold := 1 }
        { id := 0, name := [], description := [], actions := [], approvers := [kA],
          executed := false, multisig := kC } [] ∧
    (Native.execute { key := kA, is_signer := false }
        { name := [], members := [kA], threshold := 1 }
        { id := 0, name := [], description := [], actions := [], approvers := [kA],
          executed := false, multisig := kC } []).1.executed = true :=
  claim_C8 { key := kA, is_signer := false } { key := kB, is_signer := true }
    { name := [], members := [kA], threshold := 1 }
    { id := 0, name := [], description := [], actions := [], approvers := [kA],
      executed := false, multisig := kC } [] (by decide) (by decide)

/-- C3: a successful `approve(a)` grows the approvers list by exactly one,
and repeating the same `approve(a)` on the result fails with
`AlreadyApproved`, in both implementations. -/
theorem claim_C3 (m : Native.Multisig) (p p' : Native.Proposal) (a : Pubkey)
    (q q' : Anchor.Proposal) (b : Pubkey)
    (h : Native.Proposal.approve p m a = .ok p')
    (h2 : Anchor.Proposal.approve q b = .ok q') :
    p'.approvers.length = p.approvers.length + 1 ∧
    Native.Proposal.approve p' m a = .error (.Custom ProposalError.AlreadyApproved) ∧
    q'.approvers.length = q.approvers.length + 1 ∧
    Anchor.Proposal.approve q' b = .error .AlreadyApproved := by
  obtain ⟨hm, happ⟩ := native_approve_ok m p p' a h
  have hqq : q' = { q with approvers := q.approvers ++ [b] } := by
    by_cases hq : b ∈ q.approvers
    · simp [Anchor.Proposal.approve, hq] at h2
    · simp [Anchor.Proposal.approve, hq] at h2
      exact h2.symm
  refine ⟨by simp [happ], ?_, by simp [hqq], ?_⟩
  · have hap' : Native.Proposal.has_approved p' a = true := by
      simp [Native.Proposal.has_approved, happ]
    have hcm : Native.Multisig.check_member m a = .ok () := by
      simp [Native.Multisig.check_member, hm]
    simp [Native.Proposal.approve, hcm, hap']
  · have hq' : b ∈ q'.approvers := by simp [hqq]
    simp [Anchor.Proposal.approve, hq']

/-- C3 witness at a concrete proposal in each implementation. -/
theorem claim_C3_witness :
    ({ id := 0, name := [], description := [], actions := [], approvers := [kA],
       executed := false, multisig := kC } : Native.Proposal).approvers.length = 0 + 1 ∧
    Native.Proposal.approve
        { id := 0, name := [], description := [], actions := [], approvers := [kA],
          executed := false, multisig := kC }
        { name := [], members := [kA], threshold := 1 } kA
      = Except.error (.Custom ProposalError.AlreadyApproved) ∧
    ({ id := 0, actions := [], executed := false, approvers := [kB],
       bump := 0 } : Anchor.Proposal).approvers.length = 0 + 1 ∧
    Anchor.Proposal.approve
        { id := 0, actions := [], executed := false, approvers := [kB], bump := 0 } kB
      = Except.error .AlreadyApproved := by
  have h := claim_C3 { name := [], members := [kA], threshold := 1 }
    { id := 0, name := [], description := [], actions := [], approvers := [],
      executed := false, multisig := kC }
    { id := 0, name := [], description := [], actions := [], approvers := [kA],
      executed := false, multisig := kC } kA
    { id := 0, actions := [], executed := false, approvers := [], bump := 0 }
    { id := 0, actions := [], executed := false, approvers := [kB], bump := 0 } kB
    (by decide) (by decide)
  simpa using h

/-- C5 (amended): the anchor `add_member` fails with `AlreadyMember` on a
present address and otherwise appends; the native `add_member` silently
returns success without modification on a present address (its own comment:
"if already a member, do nothing"), and otherwise appends. -/
theorem claim_C5 (m : Native.Multisig) (a : Pubkey) (am : Anchor.Multisig) (b : Pubkey) :
    (m.is_member a = true → Native.Multisig.add_member m a = .ok m) ∧
    (m.is_member a = false →
      Native.Multisig.add_member m a = .ok { m with members := m.members ++ [a] }) ∧
    (am.is_member b = true → Anchor.Multisig.add_member am b = .error .AlreadyMember) ∧
    (am.is_member b = false →
      Anchor.Multisig.add_member am b = .ok { am with members := am.members ++ [b] }) := by
  refine ⟨?_, ?_, ?_, ?_⟩ <;> intro h
  · simp [Native.Multisig.add_member, h]
  · simp [Native.Multisig.add_member, h]
  · simp [Anchor.Multisig.add_member, h]
  · simp [Anchor.Multisig.add_member, h]

/-- C5 counterexample: adding an address that is already a member to the
native multisig succeeds (no `AlreadyMember` error) and changes nothing. -/
theorem claim_C5_cex :
    Native.Multisig.is_member { name := [], members := [kA], threshold := 1 } kA = true ∧
    Native.Multisig.add_member { name := [], members := [kA], threshold := 1 } kA
      = Except.ok { name := [], members := [kA], threshold := 1 } := by
  exact ⟨by decide, by decide⟩

/-- C5 witness: the anchor rejection and the native append at concrete
inputs. -/
theorem claim_C5_witness :
    Anchor.Multisig.add_member { name := [], members := [kA], threshold := 1, bump := 0 } kA
      = Except.error .AlreadyMember ∧
    Native.Multisig.add_member { name := [], members := [kA], threshold := 1 } kB
      = Except.ok { name := [], members := [kA, kB], threshold := 1 } := by
  refine ⟨(claim_C5 { name := [], members := [kA], threshold := 1 } kB
      { name := [], members := [kA], threshold := 1, bump := 0 } kA).2.2.1 (by decide), ?_⟩
  exact (claim_C5 { name := [], members := [kA], threshold := 1 } kB
    { name := [], members := [kA], threshold := 1, bump := 0 } kA).2.1 (by decide)

/-- C4 (amended): the anchor `remove_member` raises exactly the claimed
errors in the claimed order — `NotAMember` iff the address is absent, then
`ThresholdTooHigh` when the remaining count falls below the threshold, then
`NoMembers` (checked after the threshold check) — while the native
`remove_member` performs no `NotAMember` check at all (removing an absent
address from a well-formed group succeeds unchanged) and checks `NoMembers`
before `ThresholdTooHigh`. -/
theorem claim_C4 (m : Native.Multisig) (a : Pubkey) (am : Anchor.Multisig) (b : Pubkey) :
    (a ∉ m.members → 1 ≤ m.threshold → m.threshold ≤ m.members.length →
      Native.Multisig.remove_member m a = .ok m) ∧
    (m.members.filter (fun y => y != a) = [] →
      Native.Multisig.remove_member m a = .error (.Custom MultisigError.NoMembers)) ∧
    (b ∉ am.members → Anchor.Multisig.remove_member am b = .error .NotAMember) ∧
    (b ∈ am.members → (am.members.filter (fun y => y != b)).length < am.threshold →
      Anchor.Multisig.remove_member am b = .error .ThresholdTooHigh) ∧
    (b ∈ am.members → am.threshold ≤ (am.members.filter (fun y => y != b)).length →
      (am.members.filter (fun y => y != b)).length = 0 →
      Anchor.Multisig.remove_member am b = .error .NoMembers) ∧
    (b ∈ am.members → am.threshold ≤ (am.members.filter (fun y => y != b)).length →
      (am.members.filter (fun y => y != b)).length ≠ 0 →
      Anchor.Multisig.remove_member am b
        = .ok { am with members := am.members.filter (fun y => y != b) }) := by
  refine ⟨?_, ?_, ?_, ?_, ?_, ?_⟩
  · intro ha h1 h2
    have hf : m.members.filter (fun y => y != a) = m.members := by
      apply List.filter_eq_self.mpr
      intro y hy
      simp only [bne_iff_ne, ne_eq, decide_eq_true_eq]
      intro he; exact ha (he ▸ hy)
    have hne : ¬(m.members.length = 0) := by omega
    have hth : ¬(m.threshold > m.members.length) := by omega
    simp [Native.Multisig.remove_member, hf, hne, hth]
  · intro hf
    simp [Native.Multisig.remove_member, hf]
  · intro hb
    simp [Anchor.Multisig.remove_member, Anchor.Multisig.is_member,
      List.elem_eq_mem, hb]
  · intro hb hlt
    simp [Anchor.Multisig.remove_member, Anchor.Multisig.is_member,
      List.elem_eq_mem, hb, hlt]
  · intro hb hge hz
    have hlt : ¬((am.members.filter (fun y => y != b)).length < am.threshold) := by omega
    simp [Anchor.Multisig.remove_member, Anchor.Multisig.is_member,
      List.elem_eq_mem, hb, hlt, hz]
    omega
  · intro hb hge hz
    have hlt : ¬((am.members.filter (fun y => y != b)).length < am.threshold) := by omega
    simp [Anchor.Multisig.remove_member, Anchor.Multisig.is_member,
      List.elem_eq_mem, hb, hlt, hz]

/-- C4 counterexample: removing an absent address from the native multisig
succeeds instead of failing with `NotAMember`. -/
theorem claim_C4_cex :
    kC ∉ ({ name := [], members := [kA, kB], threshold := 1 } : Native.Multisig).members ∧
    Native.Multisig.remove_member { name := [], members := [kA, kB], threshold := 1 } kC
      = Except.ok { name := [], members := [kA, kB], threshold := 1 } := by
  exact ⟨by decide, by decide⟩

/-- C4 witness: the native no-error removal of an absent address and the
anchor `ThresholdTooHigh` rejection at concrete inputs. -/
theorem claim_C4_witness :
    Native.Multisig.remove_member { name := [], members := [kA, kB], threshold := 1 } kC
      = Except.ok { name := [], members := [kA, kB], threshold := 1 } ∧
    Anchor.Multisig.remove_member { name := [], members := [kA, kB], threshold := 2, bump := 0 } kA
      = Except.error .ThresholdTooHigh := by
  refine ⟨(claim_C4 { name := [], members := [kA, kB], threshold := 1 } kC
      { name := [], members := [kA, kB], threshold := 2, bump := 0 } kA).1
      (by decide) (by decide) (by decide), ?_⟩
  exact (claim_C4 { name := [], members := [kA, kB], threshold := 1 } kC
    { name := [], members := [kA, kB], threshold := 2, bump := 0 } kA).2.2.2.1
    (by decide) (by decide)

/-- C1 (amended): `add_member`, `remove_member` and `set_threshold` /
`update_threshold` preserve the invariant `1 ≤ threshold ≤ len(members)`
(violations fail with the matching threshold error and, in the `Except`
model, leave the group unchanged), and the anchor `create` establishes the
invariant — but the native `create` performs no threshold validation (see
the counterexample). -/
theorem claim_C1 (m : Native.Multisig) (a : Pubkey) (t : Nat)
    (nm : List Nat) (mems : List Pubkey) (th bp : Nat) :
    (∀ m1, Native.Multisig.set_threshold m t = .ok m1 →
      1 ≤ m1.threshold ∧ m1.threshold ≤ m1.members.length ∧ m1.members = m.members) ∧
    (Native.Multisig.set_threshold m 0 = .error (.Custom MultisigError.ThresholdTooLow)) ∧
    (t > m.members.length →
      Native.Multisig.set_threshold m t = .error (.Custom MultisigError.ThresholdTooHigh)) ∧
    (∀ m2, 1 ≤ m.threshold → Native.Multisig.remove_member m a = .ok m2 →
      1 ≤ m2.threshold ∧ m2.threshold ≤ m2.members.length) ∧
    (∀ m3, 1 ≤ m.threshold → m.threshold ≤ m.members.length →
      Native.Multisig.add_member m a = .ok m3 →
      1 ≤ m3.threshold ∧ m3.threshold ≤ m3.members.length) ∧
    (∀ am : Anchor.Multisig, Anchor.create nm mems th bp = .ok am →
      1 ≤ am.threshold ∧ am.threshold ≤ am.members.length) := by
  refine ⟨?_, ?_, ?_, ?_, ?_, ?_⟩
  · intro m1 h
    by_cases h1 : t > m.members.length
    · simp [Native.Multisig.set_threshold, h1] at h
    · by_cases h2 : t = 0
      · simp [Native.Multisig.set_threshold, h1, h2] at h
      · simp [Native.Multisig.set_threshold, h1, h2] at h
        subst h
        simp
        omega
  · have h1 : ¬((0 : Nat) > m.members.length) := by omega
    simp [Native.Multisig.set_threshold, h1]
  · intro h1
    simp [Native.Multisig.set_threshold, h1]
  · intro m2 hth h
    by_cases h1 : (m.members.filter (fun y => y != a)).length = 0
    · simp [Native.Multisig.remove_member, h1] at h
    · by_cases h2 : m.threshold > (m.members.filter (fun y => y != a)).length
      · simp [Native.Multisig.remove_member, h1, h2] at h
      · simp [Native.Multisig.remove_member, h1, h2] at h
        subst h
        simp
        omega
  · intro m3 h1 h2 h
    by_cases hm : m.is_member a
    · simp [Native.Multisig.add_member, hm] at h
      subst h
      omega
    · simp [Native.Multisig.add_member, hm] at h
      subst h
      simp
      omega
  · intro am h
    simp only [Anchor.create] at h
    cases hu : Anchor.Multisig.update_members
        { name := nm, members := [], threshold := 0, bump := 0 } mems with
    | error e => simp [hu] at h
    | ok m1 =>
      cases ht : Anchor.Multisig.update_threshold m1 th with
      | error e => simp [hu, ht] at h
      | ok m2 =>
        simp [hu, ht] at h
        subst h
        by_cases h1 : th > m1.members.length
        · simp [Anchor.Multisig.update_threshold, h1] at ht
        · by_cases h2 : th < 1
          · simp [Anchor.Multisig.update_threshold, h1, h2] at ht
          · simp [Anchor.Multisig.update_threshold, h1, h2] at ht
            subst ht
            simp
            omega

/-- C1 counterexample: the native `create` accepts threshold `0` with a
non-empty member list, producing a group violating
`1 ≤ threshold ≤ len(members)`. -/
theorem claim_C1_cex :
    Native.createMultisig [] [kA] 0
      = Except.ok { name := [], members := [kA], threshold := 0 } ∧
    ¬(1 ≤ ({ name := [], members := [kA], threshold := 0 } : Native.Multisig).threshold) := by
  exact ⟨by decide, by decide⟩

/-- C1 witness: the preserved invariant at concrete inputs for
`set_threshold`, `remove_member` and the anchor `create`. -/
theorem claim_C1_witness :
    (1 ≤ ({ name := [], members := [kA, kB], threshold := 2 } : Native.Multisig).threshold ∧
      ({ name := [], members := [kA, kB], threshold := 2 } : Native.Multisig).threshold
        ≤ ({ name := [], members := [kA, kB], threshold := 2 } : Native.Multisig).members.length ∧
      ({ name := [], members := [kA, kB], threshold := 2 } : Native.Multisig).members
        = ({ name := [], members := [kA, kB], threshold := 1 } : Native.Multisig).members) ∧
    (1 ≤ ({ name := [], members := [kA, kB], threshold := 1 } : Native.Multisig).threshold ∧
      ({ name := [], members := [kA, kB], threshold := 1 } : Native.Multisig).threshold
        ≤ ({ name := [], members := [kA, kB], threshold := 1 } : Native.Multisig).members.length) ∧
    (1 ≤ ({ name := [], members := [kA], threshold := 1, bump := 0 } : Anchor.Multisig).threshold ∧
      ({ name := [], members := [kA], threshold := 1, bump := 0 } : Anchor.Multisig).threshold
        ≤ ({ name := [], members := [kA], threshold := 1, bump := 0 } : Anchor.Multisig).members.length) := by
  refine ⟨(claim_C1 { name := [], members := [kA, kB], threshold := 1 } kC 2 [] [kA] 1 0).1
    { name := [], members := [kA, kB], threshold := 2 } (by decide), ?_, ?_⟩
  · exact (claim_C1 { name := [], members := [kA, kB], threshold := 1 } kC 2 [] [kA] 1 0).2.2.2.1
      { name := [], members := [kA, kB], threshold := 1 } (by decide) (by decide)
  · exact (claim_C1 { name := [], members := [kA, kB], threshold := 1 } kC 2 [] [kA] 1 0).2.2.2.2.2
      { name := [], members := [kA], threshold := 1, bump := 0 } (by decide)

/-- C2 (amended): `executed` transitions `false → true` at most once and a
second `execute` on an already-executed proposal always fails and
dispatches nothing; the anchor variant always reports `AlreadyExecuted`,
while the native variant checks the threshold first and reports
`NotEnoughApprovals` instead whenever the group threshold has risen above
the recorded approver count (see the counterexample), reporting
`AlreadyExecuted` in every other case. -/
theorem claim_C2 (s : AccountInfo) (m : Native.Multisig) (p : Native.Proposal)
    (rest : List AccountInfo) (am : Anchor.Multisig) (ap : Anchor.Proposal)
    (arem : List AccountInfo)
    (hp : p.executed = true) (hap : ap.executed = true) :
    (Native.execute s m p rest).1 = p ∧
    (Native.execute s m p rest).2.1 = [] ∧
    ((Native.execute s m p rest).2.2 = some (.Custom ProposalError.NotEnoughApprovals) ∨
      (Native.execute s m p rest).2.2 = some (.Custom ProposalError.AlreadyExecuted)) ∧
    (p.has_reached_threshold m = true →
      (Native.execute s m p rest).2.2 = some (.Custom ProposalError.AlreadyExecuted)) ∧
    Anchor.executeProposal am ap arem = (ap, [], some .AlreadyExecuted) := by
  by_cases hth : p.has_reached_threshold m
  · simp [Native.execute, hth, hp, Anchor.executeProposal,
      Anchor.Proposal.check_executed, hap]
  · simp [Native.execute, hth, hp, Anchor.executeProposal,
      Anchor.Proposal.check_executed, hap]

/-- C2 counterexample: the native `execute` on an already-executed proposal
whose approver count no longer meets the group threshold fails with
`NotEnoughApprovals`, not `AlreadyExecuted` as the claim states. -/
theorem claim_C2_cex :
    ({ id := 0, name := [], description := [], actions := [], approvers := [],
       executed := true, multisig := kC } : Native.Proposal).executed = true ∧
    (Native.execute { key := kA, is_signer := true }
        { name := [], members := [kA], threshold := 1 }
        { id := 0, name := [], description := [], actions := [], approvers := [],
          executed := true, multisig := kC } []).2.2
      = some (.Custom ProposalError.NotEnoughApprovals) ∧
    ProposalError.NotEnoughApprovals ≠ ProposalError.AlreadyExecuted := by
  exact ⟨by decide, by decide, by decide⟩

/-- C2 witness: a fully-approved already-executed proposal is rejected with
`AlreadyExecuted` and dispatches nothing, in both implementations. -/
theorem claim_C2_witness :
    (Native.execute { key := kA, is_signer := true }
        { name := [], members := [kA], threshold := 1 }
        { id := 0, name := [], description := [], actions := [], approvers := [kA],
          executed := true, multisig := kC } []).2.1 = [] ∧
    (Native.execute { key := kA, is_signer := true }
        { name := [], members := [kA], threshold := 1 }
        { id := 0, name := [], description := [], actions := [], approvers := [kA],
          executed := true, multisig := kC } []).2.2
      = some (.Custom ProposalError.AlreadyExecuted) ∧
    Anchor.executeProposal { name := [], members := [kA], threshold := 1, bump := 0 }
        { id := 0, actions := [], executed := true, approvers := [kA], bump := 0 } []
      = ({ id := 0, actions := [], executed := true, approvers := [kA], bump := 0 }, [],
          some .AlreadyExecuted) := by
  have h := claim_C2 { key := kA, is_signer := true }
    { name := [], members := [kA], threshold := 1 }
    { id := 0, name := [], description := [], actions := [], approvers := [kA],
      executed := true, multisig := kC } []
    { name := [], members := [kA], threshold := 1, bump := 0 }
    { id := 0, actions := [], executed := true, approvers := [kA], bump := 0 } []
    (by decide) (by decide)
  exact ⟨h.2.1, h.2.2.2.1 (by decide), h.2.2.2.2⟩

/-- C6 (amended): for the native `Multisig`/`Proposal`/`Action`, encoding
then decoding reproduces the value and `size()` equals the exact encoded
byte length; the anchor `Multisig` satisfies the same with its 8-byte
account discriminator counted (`size = 8 + |fields|`); but the anchor
`Action::size` overcounts its borsh encoding by exactly 8 bytes per value
(and the anchor `Proposal::size` inherits 8 extra bytes per contained
action), so `size()` is not the exact encoded length there. -/
theorem claim_C6 (m : Native.Multisig) (a : Native.Action) (p : Native.Proposal)
    (am : Anchor.Multisig) (aa : Anchor.Action) (ap : Anchor.Proposal)
    (hm : m.name.length < 2 ^ 32 ∧ m.members.length < 2 ^ 32 ∧ m.threshold < 2 ^ 64)
    (ha : a.accounts.length < 2 ^ 32 ∧ a.data.length < 2 ^ 32)
    (hp : p.id < 2 ^ 64 ∧ p.name.length < 2 ^ 32 ∧ p.description.length < 2 ^ 32 ∧
      p.actions.length < 2 ^ 32 ∧
      (∀ x ∈ p.actions, x.accounts.length < 2 ^ 32 ∧ x.data.length < 2 ^ 32) ∧
      p.approvers.length < 2 ^ 32)
    (ham : am.name.length < 2 ^ 32 ∧ am.members.length < 2 ^ 32 ∧
      am.threshold < 2 ^ 64 ∧ am.bump < 256)
    (haa : aa.accounts.length < 2 ^ 32 ∧ aa.data.length < 2 ^ 32)
    (hap : ap.id < 2 ^ 64 ∧ ap.actions.length < 2 ^ 32 ∧
      (∀ x ∈ ap.actions, x.accounts.length < 2 ^ 32 ∧ x.data.length < 2 ^ 32) ∧
      ap.approvers.length < 2 ^ 32 ∧ ap.bump < 256) :
    Native.readMultisig (Native.encodeMultisig m) = some (m, []) ∧
    m.size = (Native.encodeMultisig m).length ∧
    Native.readAction (Native.encodeAction a) = some (a, []) ∧
    a.size = (Native.encodeAction a).length ∧
    Native.readProposal (Native.encodeProposal p) = some (p, []) ∧
    p.size = (Native.encodeProposal p).length ∧
    Anchor.readMultisig (Anchor.encodeMultisig am) = some (am, []) ∧
    am.size = 8 + (Anchor.encodeMultisig am).length ∧
    Anchor.readAction (Anchor.encodeAction aa) = some (aa, []) ∧
    aa.size = (Anchor.encodeAction aa).length + 8 ∧
    Anchor.readProposal (Anchor.encodeProposal ap) = some (ap, []) ∧
    ap.size = 8 + (Anchor.encodeProposal ap).length + 8 * ap.actions.length := by
  refine ⟨?_, (length_encodeMultisigN m).symm, ?_, (length_encodeActionN a).symm, ?_,
    (length_encodeProposalN p).symm, ?_, length_encodeMultisigA am, ?_,
    length_encodeActionA aa, ?_, length_encodeProposalA ap⟩
  · have := readMultisigN_encode m [] hm.1 hm.2.1 hm.2.2
    simpa using this
  · have := readActionN_encode a [] ha.1 ha.2
    simpa using this
  · have := readProposalN_encode p [] hp.1 hp.2.1 hp.2.2.1 hp.2.2.2.1 hp.2.2.2.2.1 hp.2.2.2.2.2
    simpa using this
  · have := readMultisigA_encode am [] ham.1 ham.2.1 ham.2.2.1 ham.2.2.2
    simpa using this
  · have := readActionA_encode aa [] haa.1 haa.2
    simpa using this
  · have := readProposalA_encode ap [] hap.1 hap.2.1 hap.2.2.1 hap.2.2.2.1 hap.2.2.2.2
    simpa using this

/-- C6 counterexample: a concrete anchor `Action` whose `size()` (48) is
not the length of its borsh encoding (40). -/
theorem claim_C6_cex :
    Anchor.Action.size { program_id := kA, accounts := [], data := [] } = 48 ∧
    (Anchor.encodeAction { program_id := kA, accounts := [], data := [] }).length = 40 ∧
    Anchor.Action.size { program_id := kA, accounts := [], data := [] }
      ≠ (Anchor.encodeAction { program_id := kA, accounts := [], data := [] }).length := by
  exact ⟨by decide, by decide, by decide⟩

/-- A concrete native multisig for the C6 witness. -/
def nmW : Native.Multisig := { name := [5], members := [kA, kB], threshold := 2 }

/-- A concrete native action for the C6 witness. -/
def nActW : Native.Action := { program_id := kA, accounts := [kB], data := [9] }

/-- A concrete native proposal for the C6 witness. -/
def npW : Native.Proposal :=
  { id := 3, name := [1], description := [2], actions := [nActW],
    approvers := [kC], executed := false, multisig := kC }

/-- A concrete anchor multisig for the C6 witness. -/
def amW : Anchor.Multisig := { name := [5], members := [kA], threshold := 1, bump := 4 }

/-- A concrete anchor action account for the C6 witness. -/
def aaAccW : Anchor.ActionAccount := { pubkey := kB, is_signer := true, is_writable := false }

/-- A concrete anchor action for the C6 witness. -/
def aActW : Anchor.Action := { program_id := kA, accounts := [aaAccW], data := [9] }

/-- A concrete anchor proposal for the C6 witness. -/
def apW : Anchor.Proposal :=
  { id := 3, actions := [aActW], executed := false, approvers := [kC], bump := 7 }

/-- C6 witness: the round trips and exact sizes at small concrete values. -/
theorem claim_C6_witness :
    Native.readMultisig (Native.encodeMultisig nmW) = some (nmW, []) ∧
    nmW.size = (Native.encodeMultisig nmW).length ∧
    Native.readProposal (Native.encodeProposal npW) = some (npW, []) ∧
    npW.size = (Native.encodeProposal npW).length ∧
    Anchor.readProposal (Anchor.encodeProposal apW) = some (apW, []) ∧
    apW.size = 8 + (Anchor.encodeProposal apW).length + 8 * apW.actions.length := by
  have h := claim_C6 nmW nActW npW amW aActW apW
    (by decide) (by decide) (by decide) (by decide) (by decide) (by decide)
  exact ⟨h.1, h.2.1, h.2.2.2.2.1, h.2.2.2.2.2.1,
    h.2.2.2.2.2.2.2.2.2.2.1, h.2.2.2.2.2.2.2.2.2.2.2⟩

/-- C7: a successful proposal execution dispatches exactly one call per
action, in list order, consuming exactly each action's declared account
count from the caller-supplied stream; and if a supplied account's address
fails to match its action's declared parameter positionally, execution
aborts with the invalid-account error and no call for that action is
issued (calls of earlier actions were already dispatched).  Proved for
both implementations. -/
theorem claim_C7
    (am : Anchor.Multisig) (ap aq : Anchor.Proposal)
    (slices qslices : List (List AccountInfo)) (extra qextra : List AccountInfo)
    (pre post : List Anchor.Action) (bad : Anchor.Action) (badSlice : List AccountInfo)
    (sM : Native.Multisig) (s : AccountInfo) (np nq : Native.Proposal)
    (nslices mslices : List (List AccountInfo)) (nextra mextra : List AccountInfo)
    (npre npost : List Native.Action) (nbad : Native.Action) (nbadSlice : List AccountInfo)
    (hx : ap.executed = false) (hth : am.threshold ≤ ap.approvers.length)
    (hmatch : List.Forall₂ Anchor.SliceMatches ap.actions slices)
    (hqx : aq.executed = false) (hqth : am.threshold ≤ aq.approvers.length)
    (hq : aq.actions = pre ++ bad :: post)
    (hqm : List.Forall₂ Anchor.SliceMatches pre qslices)
    (hbl : badSlice.length = bad.accounts.length)
    (hbne : badSlice.map AccountInfo.key ≠ bad.accounts.map Anchor.ActionAccount.pubkey)
    (hnx : np.executed = false) (hnth : np.has_reached_threshold sM = true)
    (hnm : List.Forall₂ Native.SliceMatches np.actions nslices)
    (hmx : nq.executed = false) (hmth : nq.has_reached_threshold sM = true)
    (hmq : nq.actions = npre ++ nbad :: npost)
    (hmm : List.Forall₂ Native.SliceMatches npre mslices)
    (hnbl : nbadSlice.length = nbad.accounts.length)
    (hnbne : nbadSlice.map AccountInfo.key ≠ nbad.accounts) :
    Anchor.executeProposal am ap (slices.flatten ++ extra)
      = ({ ap with executed := true }, ap.actions.map Anchor.toCall, none) ∧
    Anchor.executeProposal am aq (qslices.flatten ++ (badSlice ++ qextra))
      = ({ aq with executed := true }, pre.map Anchor.toCall, some .InvalidAccount) ∧
    Native.execute s sM np (nslices.flatten ++ nextra)
      = ({ np with executed := true }, np.actions.map Native.toCall, none) ∧
    Native.execute s sM nq (mslices.flatten ++ (nbadSlice ++ mextra))
      = ({ nq with executed := true }, npre.map Native.toCall, some .InvalidAccountData) := by
  refine ⟨?_, ?_, ?_, ?_⟩
  · have hr := Anchor.runActionsA_all_ok am ap.actions slices hmatch extra
    simp [Anchor.executeProposal, Anchor.Proposal.check_executed, hx,
      Anchor.Proposal.check_threshold, Nat.not_lt.mpr hth, hr]
  · have hr := Anchor.runActionsA_abort am pre qslices hqm bad badSlice post qextra hbl hbne
    simp [Anchor.executeProposal, Anchor.Proposal.check_executed, hqx,
      Anchor.Proposal.check_threshold, Nat.not_lt.mpr hqth, hq, hr]
  · have hr := Native.runActions_all_ok np.actions nslices hnm nextra
    simp [Native.execute, hnth, hnx, hr]
  · have hr := Native.runActions_abort npre mslices hmm nbad nbadSlice npost mextra hnbl hnbne
    simp [Native.execute, hmth, hmx, hmq, hr]

/-- The first account supplied for the C7 witness's matching slice. -/
def acctB : AccountInfo := { key := kB, is_signer := false }

/-- A mismatched account for the C7 witness. -/
def acctA : AccountInfo := { key := kA, is_signer := false }

/-- The anchor multisig of the C7 witness. -/
def amW7 : Anchor.Multisig := { name := [], members := [kC], threshold := 1, bump := 0 }

/-- The anchor proposal executed successfully in the C7 witness. -/
def apW7 : Anchor.Proposal :=
  { id := 0, actions := [aActW], executed := false, approvers := [kC], bump := 0 }

/-- The anchor proposal aborted on a mismatched account in the C7
witness. -/
def aqW7 : Anchor.Proposal :=
  { id := 1, actions := [aActW], executed := false, approvers := [kC], bump := 0 }

/-- The native multisig of the C7 witness. -/
def sMW7 : Native.Multisig := { name := [], members := [kC], threshold := 1 }

/-- The native proposal executed successfully in the C7 witness. -/
def npW7 : Native.Proposal :=
  { id := 0, name := [], description := [], actions := [nActW],
    approvers := [kC], executed := false, multisig := kC }

/-- The native proposal aborted on a mismatched account in the C7
witness. -/
def nqW7 : Native.Proposal :=
  { id := 1, name := [], description := [], actions := [nActW],
    approvers := [kC], executed := false, multisig := kC }

/-- C7 witness: one action declaring one account (`kB`); a matching stream
dispatches exactly its call, a mismatched stream (`kA`) aborts with the
invalid-account error and dispatches nothing. -/
theorem claim_C7_witness :
    Anchor.executeProposal amW7 apW7 ([[acctB]].flatten ++ [])
      = ({ apW7 with executed := true }, apW7.actions.map Anchor.toCall, none) ∧
    Anchor.executeProposal amW7 aqW7 ([].flatten ++ ([acctA] ++ []))
      = ({ aqW7 with executed := true }, ([] : List Anchor.Action).map Anchor.toCall,
          some .InvalidAccount) ∧
    Native.execute acctA sMW7 npW7 ([[acctB]].flatten ++ [])
      = ({ npW7 with executed := true }, npW7.actions.map Native.toCall, none) ∧
    Native.execute acctA sMW7 nqW7 ([].flatten ++ ([acctA] ++ []))
      = ({ nqW7 with executed := true }, ([] : List Native.Action).map Native.toCall,
          some .InvalidAccountData) :=
  claim_C7 amW7 apW7 aqW7 [[acctB]] [] [] []
    [] [] aActW [acctA]
    sMW7 acctA npW7 nqW7
    [[acctB]] [] [] []
    [] [] nActW [acctA]
    (by decide) (by decide)
    (List.Forall₂.cons rfl List.Forall₂.nil)
    (by decide) (by decide) (by decide)
    List.Forall₂.nil
    (by decide) (by decide)
    (by decide) (by decide)
    (List.Forall₂.cons rfl List.Forall₂.nil)
    (by decide) (by decide) (by decide)
    List.Forall₂.nil
    (by decide) (by decide)
